import Mathlib

/-!
Shallow embedding of `rmCardinality` and the surrounding generator logic from
`prometheus/gen_go_collector_metrics_set.go` (Go), together with the name-translation
interface it depends on.  Machine floats appear in the source only through equality
comparisons with `math.Inf(1)` and `math.Inf(-1)`, so boundary values are modelled by
an inductive type with explicit infinity constructors and an opaque finite payload.
-/

/-- The kinds of `runtime/metrics` values (Go `metrics.ValueKind`): the source only
ever tests `d.Kind == metrics.KindFloat64Histogram`. -/
inductive Kind where
  | kindBad
  | kindUint64
  | kindFloat64
  | kindFloat64Histogram
deriving DecidableEq

/-- A bucket boundary value (Go `float64`).  The generator compares boundaries only
against plus and minus infinity, so finite values are carried as an opaque integer
payload; distinct constructors are never equal, matching IEEE comparisons of finite
values with infinities. -/
inductive RMFloat where
  | negInf
  | posInf
  | fin (x : Int)
deriving DecidableEq

/-- One `metrics.Description` catalog entry: a name and a kind (the only two fields
`rmCardinality` reads). -/
structure Description where
  name : List Char
  kind : Kind
deriving DecidableEq

/-- Go `strings.IndexRune`: index of the first occurrence of `c` in `s`, or `-1`
when absent (character index; the source names are ASCII so this coincides with
Go's byte index). -/
def indexRune : List Char → Char → Int
  | [], _ => -1
  | a :: rest, c =>
    if a = c then 0
    else if indexRune rest c = -1 then -1 else indexRune rest c + 1

/-- The unit string the generator extracts from a metric name:
Go `name[strings.IndexRune(name, ':')+1:]` — everything after the FIRST colon,
or the whole name when there is no colon (index `-1` plus one is `0`). -/
def goUnit (name : List Char) : List Char :=
  name.drop (indexRune name ':' + 1).toNat

/-- The per-histogram cardinality contribution computed inside the loop of
`rmCardinality`:

    cardinality += len(buckets) + 3
    cardinality--
    if buckets[len(buckets)-1] == math.Inf(1) { cardinality-- }
    if buckets[0] == math.Inf(-1) { cardinality-- }

Accessing `buckets[len(buckets)-1]` of an empty slice panics in Go; the embedding
returns `none` there. -/
def histContribution (buckets : List RMFloat) : Option Int :=
  if h : buckets = [] then none
  else
    let c1 : Int := (buckets.length : Int) + 3 - 1
    let c2 : Int := if buckets.getLast h = RMFloat.posInf then c1 - 1 else c1
    let c3 : Int := if buckets.head h = RMFloat.negInf then c2 - 1 else c2
    some c3

/-- The histogram loop of `rmCardinality`: fold the contributions over the histogram
descriptors in catalog order, starting from the scalar tally `acc`; a panic
(`none` contribution) aborts the whole run. -/
def rmHistLoop (sample : List Char → List RMFloat)
    (bucketsForUnit : List RMFloat → List Char → List RMFloat) :
    List Description → Int → Option Int
  | [], acc => some acc
  | d :: rest, acc =>
    match histContribution (bucketsForUnit (sample d.name) (goUnit d.name)) with
    | none => none
    | some c => rmHistLoop sample bucketsForUnit rest (acc + c)

/-- Go `rmCardinality()`.  The first loop over `metrics.All()` counts every
non-histogram descriptor and collects the histogram descriptors in order; the second
loop adds each histogram's contribution.

Two runtime collaborators are not among the provided sources and are abstract
parameters: `sample` stands for the boundary array `metrics.Read` fills in for a
histogram name (`histograms[i].Value.Float64Histogram().Buckets`), and
`bucketsForUnit` stands for `internal.RuntimeMetricsBucketsForUnit`, which adjusts a
raw boundary array given the unit string extracted from the name. -/
def rmCardinality (catalog : List Description)
    (sample : List Char → List RMFloat)
    (bucketsForUnit : List RMFloat → List Char → List RMFloat) : Option Int :=
  rmHistLoop sample bucketsForUnit
    (catalog.filter (fun d => d.kind == Kind.kindFloat64Histogram))
    ((catalog.filter (fun d => !(d.kind == Kind.kindFloat64Histogram))).length : Int)

/-- Modelled from the spec: the Name Translator (`internal.RuntimeMetricsToProm`,
whose code is not among the provided sources) "consults a static table keyed by
descriptor name" that either assigns an exposition (namespace, subsystem, name)
triple or marks the metric excluded (`none`); it reads nothing but the descriptor
and the table. -/
def runtimeMetricsToProm
    (table : List Char → Option (List Char × List Char × List Char))
    (d : Description) : Option (List Char × List Char × List Char) :=
  table d.name

/-- The spec's per-histogram formula, written from its words: `len(B) + 3 - 1`,
minus one more when the last boundary is plus infinity, minus one more when the
first boundary is minus infinity. -/
def specContribution (B : List RMFloat) : Int :=
  (B.length : Int) + 3 - 1
    - (if B.getLast? = some RMFloat.posInf then 1 else 0)
    - (if B.head? = some RMFloat.negInf then 1 else 0)

/-- The spec's words for the unit suffix: the portion of the name after the LAST
colon (the whole name when no colon is present). -/
def unitAfterLastColon (s : List Char) : List Char :=
  (s.reverse.takeWhile (fun c => c != ':')).reverse

/-- The portion of the name after the FIRST colon, stated without `indexRune`:
drop up to and including the first colon. -/
def unitAfterFirstColon (s : List Char) : List Char :=
  (s.dropWhile (fun c => c != ':')).tail

/-- Sum of histogram contributions in order, `none` as soon as one is `none`. -/
def histSum (sample : List Char → List RMFloat)
    (bucketsForUnit : List RMFloat → List Char → List RMFloat) :
    List Description → Option Int
  | [] => some 0
  | d :: rest =>
    match histContribution (bucketsForUnit (sample d.name) (goUnit d.name)),
        histSum sample bucketsForUnit rest with
    | some c, some t => some (c + t)
    | _, _ => none

section Lemmas

variable (sample : List Char → List RMFloat)
variable (bfu : List RMFloat → List Char → List RMFloat)

theorem rmHistLoop_eq_histSum (l : List Description) (acc : Int) :
    rmHistLoop sample bfu l acc = (histSum sample bfu l).map (fun t => acc + t) := by
  induction l generalizing acc with
  | nil => simp [rmHistLoop, histSum]
  | cons d rest ih =>
    cases hc : histContribution (bfu (sample d.name) (goUnit d.name)) with
    | none => simp [rmHistLoop, histSum, hc]
    | some c =>
      cases ht : histSum sample bfu rest with
      | none => simp [rmHistLoop, histSum, hc, ht, ih]
      | some t => simp [rmHistLoop, histSum, hc, ht, ih, Int.add_assoc]

theorem histSum_append (l1 l2 : List Description) :
    histSum sample bfu (l1 ++ l2)
      = match histSum sample bfu l1, histSum sample bfu l2 with
        | some a, some b => some (a + b)
        | _, _ => none := by
  induction l1 with
  | nil =>
    cases h2 : histSum sample bfu l2 with
    | none => simp [histSum, h2]
    | some b => simp [histSum, h2]
  | cons d rest ih =>
    cases hc : histContribution (bfu (sample d.name) (goUnit d.name)) with
    | none => simp [histSum, hc]
    | some c =>
      cases h1 : histSum sample bfu rest with
      | none => simp [histSum, hc, h1, ih]
      | some a =>
        cases h2 : histSum sample bfu l2 with
        | none => simp [histSum, hc, h1, h2, ih]
        | some b => simp [histSum, hc, h1, h2, ih, Int.add_assoc]

theorem histContribution_eq_spec (B : List RMFloat) (h : B ≠ []) :
    histContribution B = some (specContribution B) := by
  unfold histContribution specContribution
  rw [dif_neg h]
  rw [List.getLast?_eq_getLast B h, List.head?_eq_head h]
  split_ifs with h1 h2 h2 <;> simp_all

theorem histContribution_eq_none_iff (B : List RMFloat) :
    histContribution B = none ↔ B = [] := by
  unfold histContribution
  split_ifs with h <;> simp [h]

theorem rmCardinality_decomp (catalog : List Description) :
    rmCardinality catalog sample bfu
      = (histSum sample bfu
            (catalog.filter (fun d => d.kind == Kind.kindFloat64Histogram))).map
          (fun t =>
            ((catalog.filter (fun d => !(d.kind == Kind.kindFloat64Histogram))).length : Int)
              + t) := by
  unfold rmCardinality
  exact rmHistLoop_eq_histSum sample bfu _ _

theorem histSum_congr_mid (sample : List Char → List RMFloat)
    (bfu : List RMFloat → List Char → List RMFloat)
    (P Q : List Description) (d e : Description)
    (hc : histContribution (bfu (sample d.name) (goUnit d.name))
        = histContribution (bfu (sample e.name) (goUnit e.name))) :
    histSum sample bfu (P ++ d :: Q) = histSum sample bfu (P ++ e :: Q) := by
  have hcons : histSum sample bfu (d :: Q) = histSum sample bfu (e :: Q) := by
    simp only [histSum, hc]
  rw [histSum_append, histSum_append, hcons]

theorem histSum_isSome_iff (l : List Description) :
    (histSum sample bfu l).isSome
      ↔ ∀ d ∈ l, bfu (sample d.name) (goUnit d.name) ≠ [] := by
  induction l with
  | nil => simp [histSum]
  | cons d rest ih =>
    cases hc : histContribution (bfu (sample d.name) (goUnit d.name)) with
    | none =>
      have hB : bfu (sample d.name) (goUnit d.name) = [] :=
        (histContribution_eq_none_iff _).mp hc
      have hval : histSum sample bfu (d :: rest) = none := by
        cases ht : histSum sample bfu rest <;> simp [histSum, hc, ht]
      rw [hval]
      simp only [Option.isSome_none, Bool.false_eq_true, false_iff]
      intro hall
      exact (hall d (List.mem_cons_self d rest)) hB
    | some c =>
      have hB : bfu (sample d.name) (goUnit d.name) ≠ [] := by
        intro hB
        rw [(histContribution_eq_none_iff _).mpr hB] at hc
        cases hc
      cases ht : histSum sample bfu rest with
      | none =>
        rw [ht] at ih
        simp only [Option.isSome_none, Bool.false_eq_true, false_iff] at ih
        have hval : histSum sample bfu (d :: rest) = none := by
          simp [histSum, hc, ht]
        rw [hval]
        simp only [Option.isSome_none, Bool.false_eq_true, false_iff]
        intro hall
        exact ih fun a ha => hall a (List.mem_cons_of_mem d ha)
      | some t =>
        rw [ht] at ih
        simp only [Option.isSome_some, true_iff] at ih
        have hval : histSum sample bfu (d :: rest) = some (c + t) := by
          simp [histSum, hc, ht]
        rw [hval]
        simp only [Option.isSome_some, true_iff, List.forall_mem_cons]
        exact ⟨hB, fun a ha => ih a ha⟩

end Lemmas

theorem indexRune_nonneg {s : List Char} {c : Char} (h : c ∈ s) :
    0 ≤ indexRune s c := by
  induction s with
  | nil => cases h
  | cons a rest ih =>
    by_cases hac : a = c
    · simp [indexRune, hac]
    · have hcr : c ∈ rest := by
        rcases List.mem_cons.mp h with h1 | h1
        · exact absurd h1.symm hac
        · exact h1
      have hge := ih hcr
      unfold indexRune
      rw [if_neg hac]
      split_ifs with h0 <;> omega

theorem indexRune_cons (a : Char) (rest : List Char) (c : Char) :
    indexRune (a :: rest) c
      = if a = c then 0
        else if indexRune rest c = -1 then -1 else indexRune rest c + 1 := rfl

theorem goUnit_cons_ne (a : Char) (rest : List Char) (h : ¬(a = ':'))
    (hm : ':' ∈ rest) : goUnit (a :: rest) = goUnit rest := by
  have h0 : 0 ≤ indexRune rest ':' := indexRune_nonneg hm
  have hne : ¬(indexRune rest ':' = -1) := by omega
  unfold goUnit
  rw [indexRune_cons, if_neg h, if_neg hne]
  have harith : (indexRune rest ':' + 1 + 1).toNat
      = (indexRune rest ':' + 1).toNat + 1 := by omega
  rw [harith, List.drop_succ_cons]

/-- Two scalar-kind descriptors and one histogram-kind descriptor: the concrete
catalog of the spec scenarios. -/
def descS1 : Description := ⟨['s', '1', ':', 'u'], Kind.kindUint64⟩

def descS2 : Description := ⟨['s', '2', ':', 'u'], Kind.kindFloat64⟩

def descH : Description := ⟨['h', ':', 'u'], Kind.kindFloat64Histogram⟩

def catalogThree : List Description := [descS1, descS2, descH]

/-- Boundary snapshot `[1.0, 5.0, 10.0]` for every histogram name. -/
def sampleFinite : List Char → List RMFloat :=
  fun _ => [RMFloat.fin 1, RMFloat.fin 5, RMFloat.fin 10]

/-- Boundary snapshot `[-Inf, 1.0, 5.0, 10.0, +Inf]` for every histogram name. -/
def sampleInf : List Char → List RMFloat :=
  fun _ => [RMFloat.negInf, RMFloat.fin 1, RMFloat.fin 5, RMFloat.fin 10, RMFloat.posInf]

/-- An adjustment that leaves the boundary array unchanged. -/
def identityAdjust : List RMFloat → List Char → List RMFloat := fun b _ => b

/-- A samples function returning the empty boundary array everywhere. -/
def sampleEmpty : List Char → List RMFloat := fun _ => []

/-- C1: For every FloatHistogram descriptor in the catalog with (adjusted) boundary
array `B`, the contribution for that histogram equals `len(B) + 3 - 1`, minus one
more when the last element of `B` is plus infinity and minus one more when the first
element is minus infinity (`specContribution`), and this contribution is added to the
running total: inserting the histogram descriptor anywhere into the catalog changes
the total by exactly that contribution. -/
theorem c1_hist_contribution_added (pre post : List Description) (d : Description)
    (sample : List Char → List RMFloat)
    (bfu : List RMFloat → List Char → List RMFloat)
    (hd : d.kind = Kind.kindFloat64Histogram)
    (hB : bfu (sample d.name) (goUnit d.name) ≠ []) :
    histContribution (bfu (sample d.name) (goUnit d.name))
        = some (specContribution (bfu (sample d.name) (goUnit d.name)))
      ∧ rmCardinality (pre ++ d :: post) sample bfu
        = (rmCardinality (pre ++ post) sample bfu).map
            (fun t => t + specContribution (bfu (sample d.name) (goUnit d.name))) := by
  refine ⟨histContribution_eq_spec _ hB, ?_⟩
  rw [rmCardinality_decomp, rmCardinality_decomp]
  have hbeq : (d.kind == Kind.kindFloat64Histogram) = true := by simp [hd]
  have hfh : (pre ++ d :: post).filter (fun x => x.kind == Kind.kindFloat64Histogram)
      = pre.filter (fun x => x.kind == Kind.kindFloat64Histogram)
        ++ d :: post.filter (fun x => x.kind == Kind.kindFloat64Histogram) := by
    simp [List.filter_append, List.filter_cons, hbeq]
  have hfs : (pre ++ d :: post).filter (fun x => !(x.kind == Kind.kindFloat64Histogram))
      = (pre ++ post).filter (fun x => !(x.kind == Kind.kindFloat64Histogram)) := by
    simp [List.filter_append, List.filter_cons, hbeq]
  have hfh2 : List.filter (fun x => x.kind == Kind.kindFloat64Histogram) (pre ++ post)
      = List.filter (fun x => x.kind == Kind.kindFloat64Histogram) pre
        ++ List.filter (fun x => x.kind == Kind.kindFloat64Histogram) post :=
    List.filter_append pre post
  have hcons : histSum sample bfu
        (d :: post.filter (fun x => x.kind == Kind.kindFloat64Histogram))
      = match histSum sample bfu
            (post.filter (fun x => x.kind == Kind.kindFloat64Histogram)) with
        | some b => some (specContribution (bfu (sample d.name) (goUnit d.name)) + b)
        | none => none := by
    cases hq : histSum sample bfu
        (post.filter (fun x => x.kind == Kind.kindFloat64Histogram)) <;>
      simp [histSum, histContribution_eq_spec _ hB, hq]
  rw [hfh, hfs, hfh2, histSum_append, histSum_append, hcons]
  cases ha : histSum sample bfu
      (pre.filter (fun x => x.kind == Kind.kindFloat64Histogram)) <;>
    cases hq : histSum sample bfu
        (post.filter (fun x => x.kind == Kind.kindFloat64Histogram)) <;>
      simp <;> ring

/-- C2 counterexample: the claim predicts that a histogram with boundaries
`[-Inf, b1, +Inf]` (one interior boundary, so `n = 1`) contributes `n + 3 = 4`
series, but the code computes `3 + 3 - 1 - 1 - 1 = 3`. -/
theorem c2_counterexample :
    histContribution [RMFloat.negInf, RMFloat.fin 1, RMFloat.posInf] = some 3
      ∧ ¬((3 : Int) = 1 + 3) := by
  constructor
  · decide
  · decide

/-- C2 amended: for every histogram whose boundary array is `[-Inf, b1, ..., bn, +Inf]`
(n interior boundaries, n + 2 boundaries in total), the contributed exposition-series
count is `(n+2) + 3 - 1 - 1 - 1 = n + 2` — one subtraction each for the unconditional
bucket-edge correction, the trailing plus-infinity boundary, and the leading
minus-infinity boundary. -/
theorem c2_amended_neg_pos_infinity (mid : List RMFloat) :
    histContribution ((RMFloat.negInf :: mid) ++ [RMFloat.posInf])
      = some ((mid.length : Int) + 2) := by
  have hne : (RMFloat.negInf :: mid) ++ [RMFloat.posInf] ≠ [] := by simp
  rw [histContribution_eq_spec _ hne]
  unfold specContribution
  have hlast : ((RMFloat.negInf :: mid) ++ [RMFloat.posInf]).getLast?
      = some RMFloat.posInf := List.getLast?_concat _
  have hhead : ((RMFloat.negInf :: mid) ++ [RMFloat.posInf]).head?
      = some RMFloat.negInf := by simp
  rw [hlast, hhead]
  simp
  omega

/-- C3: for the concrete catalog of two Scalar descriptors plus one Histogram
descriptor, the total cardinality is 7 both when the histogram's adjusted boundaries
are `[1.0, 5.0, 10.0]` (contribution `3 + 3 - 1 = 5`) and when they are
`[-Inf, 1.0, 5.0, 10.0, +Inf]` (contribution `5 + 3 - 1 - 1 - 1 = 5`). -/
theorem c3_concrete_totals :
    rmCardinality catalogThree sampleFinite identityAdjust = some 7
      ∧ rmCardinality catalogThree sampleInf identityAdjust = some 7 := by
  constructor
  · decide
  · decide

/-- C5: a histogram whose (adjusted) boundary array contains neither minus infinity
nor plus infinity contributes exactly `len(boundaries) + 2` series: for
`[b0, ..., bn]` (n + 1 boundaries) this is `n + 3`. -/
theorem c5_no_infinity_contribution (B : List RMFloat) (h : B ≠ [])
    (hpos : RMFloat.posInf ∉ B) (hneg : RMFloat.negInf ∉ B) :
    histContribution B = some ((B.length : Int) + 2) := by
  rw [histContribution_eq_spec _ h]
  unfold specContribution
  have h1 : ¬(B.getLast? = some RMFloat.posInf) := by
    intro hx
    exact hpos (List.mem_of_mem_getLast? (Option.mem_def.mpr hx))
  have h2 : ¬(B.head? = some RMFloat.negInf) := by
    intro hx
    exact hneg (List.mem_of_mem_head? (Option.mem_def.mpr hx))
  rw [if_neg h1, if_neg h2]
  ring_nf

/-- Witness for C5: the boundary array `[1.0]` is nonempty and has no infinite
boundary, and its contribution evaluates to `1 + 2 = 3`. -/
theorem c5_no_infinity_contribution_witness :
    histContribution [RMFloat.fin 1] = some 3 := by
  simpa using c5_no_infinity_contribution [RMFloat.fin 1] (by decide) (by decide)
    (by decide)

/-- Witness for C1: inserting the concrete histogram descriptor after the two scalar
descriptors adds exactly its contribution. -/
theorem c1_hist_contribution_added_witness :
    histContribution (identityAdjust (sampleFinite descH.name) (goUnit descH.name))
        = some (specContribution
            (identityAdjust (sampleFinite descH.name) (goUnit descH.name)))
      ∧ rmCardinality catalogThree sampleFinite identityAdjust
        = (rmCardinality [descS1, descS2] sampleFinite identityAdjust).map
            (fun t => t + specContribution
              (identityAdjust (sampleFinite descH.name) (goUnit descH.name))) :=
  c1_hist_contribution_added [descS1, descS2] [] descH sampleFinite identityAdjust
    (by decide) (by decide)

/-- C6 counterexample: for the name `a:b:c` the generator's unit extraction (after
the FIRST colon, `b:c`) differs from the claimed portion after the LAST colon
(`c`). -/
theorem c6_counterexample :
    ¬(goUnit ['a', ':', 'b', ':', 'c'] = unitAfterLastColon ['a', ':', 'b', ':', 'c']) := by
  decide

/-- C6 amended: for every histogram descriptor name containing a `:`, the unit
string used when adjusting its bucket boundaries is the portion of the name after
the FIRST `:` separator (the two readings agree whenever the name has exactly one
colon, as the runtime's naming convention prescribes). -/
theorem c6_amended_first_colon (name : List Char) (h : ':' ∈ name) :
    goUnit name = unitAfterFirstColon name := by
  induction name with
  | nil => cases h
  | cons a rest ih =>
    by_cases ha : a = ':'
    · subst ha
      simp [goUnit, indexRune, unitAfterFirstColon, List.dropWhile_cons]
    · have hm : ':' ∈ rest := by
        rcases List.mem_cons.mp h with h1 | h1
        · exact absurd h1.symm ha
        · exact h1
      rw [goUnit_cons_ne a rest ha hm, ih hm]
      unfold unitAfterFirstColon
      have hb : (a != ':') = true := by simpa using ha
      rw [List.dropWhile_cons, if_pos hb]

/-- Witness for C6 (amended): the concrete name `h:u` contains a colon and its
extracted unit is the portion after the first colon. -/
theorem c6_amended_first_colon_witness :
    goUnit ['h', ':', 'u'] = unitAfterFirstColon ['h', ':', 'u'] :=
  c6_amended_first_colon ['h', ':', 'u'] (by decide)

theorem nonhist_count_eq_scalar_count (catalog : List Description)
    (h : ∀ d ∈ catalog, d.kind = Kind.kindUint64 ∨ d.kind = Kind.kindFloat64
        ∨ d.kind = Kind.kindFloat64Histogram) :
    (catalog.filter (fun d => !(d.kind == Kind.kindFloat64Histogram))).length
      = (catalog.filter (fun d =>
          d.kind == Kind.kindUint64 || d.kind == Kind.kindFloat64)).length := by
  induction catalog with
  | nil => rfl
  | cons d rest ih =>
    have hd := h d (List.mem_cons_self d rest)
    have hrest : ∀ a ∈ rest, a.kind = Kind.kindUint64 ∨ a.kind = Kind.kindFloat64
        ∨ a.kind = Kind.kindFloat64Histogram :=
      fun a ha => h a (List.mem_cons_of_mem d ha)
    rcases hd with h1 | h1 | h1 <;>
      simp [List.filter_cons, h1, ih hrest]

/-- C4: in any catalog whose descriptors are Scalars (`KindUint64`/`KindFloat64`)
or FloatHistograms, the total splits into the histogram-only total plus exactly
one unit per Scalar descriptor, for every choice of names, units, and boundary
snapshots — so the Scalar contribution is exactly the number of Scalar
descriptors, independent of names and units. -/
theorem c4_scalar_cardinality (catalog : List Description)
    (sample : List Char → List RMFloat)
    (bfu : List RMFloat → List Char → List RMFloat)
    (h : ∀ d ∈ catalog, d.kind = Kind.kindUint64 ∨ d.kind = Kind.kindFloat64
        ∨ d.kind = Kind.kindFloat64Histogram) :
    rmCardinality catalog sample bfu
      = (rmCardinality (catalog.filter (fun d => d.kind == Kind.kindFloat64Histogram))
            sample bfu).map
          (fun t => t + ((catalog.filter (fun d =>
              d.kind == Kind.kindUint64 || d.kind == Kind.kindFloat64)).length : Int)) := by
  rw [rmCardinality_decomp, rmCardinality_decomp]
  have hff : (catalog.filter (fun d => d.kind == Kind.kindFloat64Histogram)).filter
        (fun d => d.kind == Kind.kindFloat64Histogram)
      = catalog.filter (fun d => d.kind == Kind.kindFloat64Histogram) := by
    simp [List.filter_filter]
  have hfn : (catalog.filter (fun d => d.kind == Kind.kindFloat64Histogram)).filter
        (fun d => !(d.kind == Kind.kindFloat64Histogram)) = [] := by
    simp [List.filter_filter]
  rw [hff, hfn, nonhist_count_eq_scalar_count catalog h]
  cases hs : histSum sample bfu
      (catalog.filter (fun d => d.kind == Kind.kindFloat64Histogram)) <;>
    simp <;> ring

/-- Witness for C4 at the concrete two-Scalars-plus-histogram catalog. -/
theorem c4_scalar_cardinality_witness :
    rmCardinality catalogThree sampleFinite identityAdjust
      = (rmCardinality (catalogThree.filter (fun d => d.kind == Kind.kindFloat64Histogram))
            sampleFinite identityAdjust).map
          (fun t => t + ((catalogThree.filter (fun d =>
              d.kind == Kind.kindUint64 || d.kind == Kind.kindFloat64)).length : Int)) :=
  c4_scalar_cardinality catalogThree sampleFinite identityAdjust (by decide)

/-- C7: the cardinality total never consults the Name Translator or its naming
table — a descriptor excluded by the table (`none` translation) is counted exactly
as a non-excluded descriptor of the same kind with the same boundary data. -/
theorem c7_exclusion_not_subtracted
    (table : List Char → Option (List Char × List Char × List Char))
    (pre post : List Description) (d e : Description)
    (sample : List Char → List RMFloat)
    (bfu : List RMFloat → List Char → List RMFloat)
    (hex : runtimeMetricsToProm table d = none)
    (hinc : (runtimeMetricsToProm table e).isSome = true)
    (hkind : d.kind = e.kind)
    (hs : sample d.name = sample e.name)
    (hu : goUnit d.name = goUnit e.name) :
    rmCardinality (pre ++ d :: post) sample bfu
      = rmCardinality (pre ++ e :: post) sample bfu := by
  rw [rmCardinality_decomp, rmCardinality_decomp]
  have hc : histContribution (bfu (sample d.name) (goUnit d.name))
      = histContribution (bfu (sample e.name) (goUnit e.name)) := by rw [hs, hu]
  by_cases hh : d.kind = Kind.kindFloat64Histogram
  · have hhe : e.kind = Kind.kindFloat64Histogram := by rw [← hkind]; exact hh
    have hbeqd : (d.kind == Kind.kindFloat64Histogram) = true := by simp [hh]
    have hbeqe : (e.kind == Kind.kindFloat64Histogram) = true := by simp [hhe]
    have hfd : (pre ++ d :: post).filter (fun x => x.kind == Kind.kindFloat64Histogram)
        = pre.filter (fun x => x.kind == Kind.kindFloat64Histogram)
          ++ d :: post.filter (fun x => x.kind == Kind.kindFloat64Histogram) := by
      simp [List.filter_append, List.filter_cons, hbeqd]
    have hfe : (pre ++ e :: post).filter (fun x => x.kind == Kind.kindFloat64Histogram)
        = pre.filter (fun x => x.kind == Kind.kindFloat64Histogram)
          ++ e :: post.filter (fun x => x.kind == Kind.kindFloat64Histogram) := by
      simp [List.filter_append, List.filter_cons, hbeqe]
    have hsd : (pre ++ d :: post).filter (fun x => !(x.kind == Kind.kindFloat64Histogram))
        = (pre ++ post).filter (fun x => !(x.kind == Kind.kindFloat64Histogram)) := by
      simp [List.filter_append, List.filter_cons, hbeqd]
    have hse : (pre ++ e :: post).filter (fun x => !(x.kind == Kind.kindFloat64Histogram))
        = (pre ++ post).filter (fun x => !(x.kind == Kind.kindFloat64Histogram)) := by
      simp [List.filter_append, List.filter_cons, hbeqe]
    rw [hfd, hfe, hsd, hse,
      histSum_congr_mid sample bfu
        (pre.filter (fun x => x.kind == Kind.kindFloat64Histogram))
        (post.filter (fun x => x.kind == Kind.kindFloat64Histogram)) d e hc]
  · have hhe : ¬(e.kind = Kind.kindFloat64Histogram) := by rw [← hkind]; exact hh
    have hbeqd : (d.kind == Kind.kindFloat64Histogram) = false :=
      beq_eq_false_iff_ne.mpr hh
    have hbeqe : (e.kind == Kind.kindFloat64Histogram) = false :=
      beq_eq_false_iff_ne.mpr hhe
    simp [List.filter_append, List.filter_cons, hbeqd, hbeqe]

/-- The concrete naming table of the C7 witness: only the name `x:u` is mapped. -/
def tableW : List Char → Option (List Char × List Char × List Char) :=
  fun n => if n = ['x', ':', 'u'] then some (['g'], ['g'], ['g']) else none

def descExcluded : Description := ⟨['a', ':', 'u'], Kind.kindUint64⟩

def descIncluded : Description := ⟨['x', ':', 'u'], Kind.kindUint64⟩

/-- Witness for C7: an excluded scalar descriptor and an included one of the same
kind yield the same total. -/
theorem c7_exclusion_not_subtracted_witness :
    rmCardinality [descExcluded] sampleEmpty identityAdjust
      = rmCardinality [descIncluded] sampleEmpty identityAdjust :=
  c7_exclusion_not_subtracted tableW [] [] descExcluded descIncluded sampleEmpty
    identityAdjust (by decide) (by decide) (by decide) rfl (by decide)

/-- C8: the Cardinality Calculator and the Name Translator are deterministic and
pure — two runs over the same frozen catalog and boundary snapshot give the same
total, and the translation of a descriptor depends only on the descriptor and the
static table, not on its position among, or the identity of, the other processed
descriptors. -/
theorem c8_deterministic_and_pure :
    (∀ (catalog : List Description) (sample : List Char → List RMFloat)
        (bfu : List RMFloat → List Char → List RMFloat),
        rmCardinality catalog sample bfu = rmCardinality catalog sample bfu)
      ∧ ∀ (table : List Char → Option (List Char × List Char × List Char))
          (d : Description) (pre post preB postB : List Description),
          ((pre ++ d :: post).map (runtimeMetricsToProm table))[pre.length]?
            = ((preB ++ d :: postB).map (runtimeMetricsToProm table))[preB.length]? := by
  constructor
  · intro catalog sample bfu
    rfl
  · intro table d pre post preB postB
    have key : ∀ (P Q : List Description),
        ((P ++ d :: Q).map (runtimeMetricsToProm table))[P.length]?
          = some (runtimeMetricsToProm table d) := by
      intro P Q
      induction P with
      | nil => simp
      | cons p ps ih => simpa using ih
    rw [key, key]

/-- C9: the run succeeds (every first/last boundary access is in bounds) exactly
when every histogram's adjusted boundary array has length at least 1; with an
empty boundary array the run fails (`none`) rather than silently tolerating it. -/
theorem c9_bounds_safety (catalog : List Description)
    (sample : List Char → List RMFloat)
    (bfu : List RMFloat → List Char → List RMFloat) :
    (rmCardinality catalog sample bfu).isSome = true
      ↔ ∀ d ∈ catalog, d.kind = Kind.kindFloat64Histogram →
          1 ≤ (bfu (sample d.name) (goUnit d.name)).length := by
  rw [rmCardinality_decomp, Option.isSome_map', histSum_isSome_iff]
  constructor
  · intro hall d hd hk
    have hmem : d ∈ catalog.filter (fun x => x.kind == Kind.kindFloat64Histogram) := by
      rw [List.mem_filter]
      exact ⟨hd, by simp [hk]⟩
    have hne := hall d hmem
    have hlen : (bfu (sample d.name) (goUnit d.name)).length ≠ 0 := by
      intro h0
      exact hne (List.length_eq_zero.mp h0)
    omega
  · intro hall d hmem
    rw [List.mem_filter] at hmem
    have hk : d.kind = Kind.kindFloat64Histogram := by
      have h2 := hmem.2
      simpa using h2
    have hlen := hall d hmem.1 hk
    intro hnil
    rw [hnil] at hlen
    simp at hlen

/-- C10: every descriptor whose kind is not FloatHistogram — including the
unrecognized `KindBad` — adds exactly 1 to the total, i.e. it is counted as if it
were a Scalar. -/
theorem c10_nonhistogram_counts_one (pre post : List Description) (d : Description)
    (sample : List Char → List RMFloat)
    (bfu : List RMFloat → List Char → List RMFloat)
    (hd : ¬(d.kind = Kind.kindFloat64Histogram)) :
    rmCardinality (pre ++ d :: post) sample bfu
      = (rmCardinality (pre ++ post) sample bfu).map (fun t => t + 1) := by
  rw [rmCardinality_decomp, rmCardinality_decomp]
  have hbeq : (d.kind == Kind.kindFloat64Histogram) = false :=
    beq_eq_false_iff_ne.mpr hd
  have hfh : (pre ++ d :: post).filter (fun x => x.kind == Kind.kindFloat64Histogram)
      = (pre ++ post).filter (fun x => x.kind == Kind.kindFloat64Histogram) := by
    simp [List.filter_append, List.filter_cons, hbeq]
  have hlen : ((pre ++ d :: post).filter
        (fun x => !(x.kind == Kind.kindFloat64Histogram))).length
      = ((pre ++ post).filter
          (fun x => !(x.kind == Kind.kindFloat64Histogram))).length + 1 := by
    simp [List.filter_append, List.filter_cons, hbeq]
    omega
  rw [hfh, hlen]
  cases hs : histSum sample bfu
      ((pre ++ post).filter (fun x => x.kind == Kind.kindFloat64Histogram)) <;>
    simp <;> omega

/-- A descriptor of the unrecognized kind. -/
def descBad : Description := ⟨['b'], Kind.kindBad⟩

/-- Witness for C10: a `KindBad` descriptor adds exactly 1. -/
theorem c10_nonhistogram_counts_one_witness :
    rmCardinality [descBad] sampleEmpty identityAdjust
      = (rmCardinality ([] : List Description) sampleEmpty identityAdjust).map
          (fun t => t + 1) :=
  c10_nonhistogram_counts_one [] [] descBad sampleEmpty identityAdjust (by decide)
